import Mathlib

/-!
Shallow embedding of the translation and subtitle-assembly core of
`video_to_bilingual_gui.py`, and theorems checking the specification's
claims about it.

External services (OpenAI chat completion, DeepL) are modelled as oracles
passed in as functions: a per-text oracle maps the text and an attempt
index to `some` response content or `none` for a raised service error; the
batch oracle maps the sequential chunk index to the parsed outcome of one
chat-completion request.  Global mutable clients (`openai_client`,
`deepl_client`) become an explicit `configured` boolean.  Floating-point
second offsets are modelled as exact counts of milliseconds (`Nat`); the
Python float arithmetic and `%06.3f` formatting coincide with this model on
every input representable to millisecond precision.  Side effects that do
not touch the values computed (sleeps, progress-bar updates, logging) are
dropped.
-/

namespace BilingualSrt

/-- Failure sentinel prepended by both retry paths when every attempt
fails (the string literal at source lines 207 and 283). -/
def failMarker : String := "【翻译失败】"

/-- Placeholder returned by the GPT paths when the OpenAI client is not
configured (source lines 218 and 270). -/
def noOpenAIKeyMsg : String := "【未配置 OpenAI Key】"

/-- Placeholder returned for every text when the DeepL client fails to
initialize (source line 189). -/
def noDeepLMsg : String := "【DeepL 未配置】"

/-- Bounded retry loop over a per-text oracle: try attempts
`attempt, attempt+1, ...` while fewer than `k` attempts remain, returning
the first successful response together with the number of oracle calls
made.  This is the loop shape shared by `_translate_single_retry`
(source lines 272-282) and the per-text `while` loop of
`translate_with_deepl_batch` (source lines 195-205). -/
def retryFirstCounted (oracle : String → Nat → Option String) (t : String) :
    Nat → Nat → Option String × Nat
  | _, 0 => (none, 0)
  | attempt, k + 1 =>
    match oracle t attempt with
    | some r => (some r, 1)
    | none =>
      let p := retryFirstCounted oracle t (attempt + 1) k
      (p.1, p.2 + 1)

/-- Embedding of `_translate_single_retry(text, retries=3, backoff=1.2)`
(source lines 268-283).  `configured` models `openai_client is not None`;
a successful response is stripped (`.strip()`), and after `retries` failed
attempts the tagged failure marker concatenated with the original text is
returned. -/
def _translate_single_retry (configured : Bool) (oracle : String → Nat → Option String)
    (retries : Nat) (text : String) : String :=
  if configured = false then noOpenAIKeyMsg ++ text
  else
    match (retryFirstCounted oracle text 0 retries).1 with
    | some r => r.trim
    | none => failMarker ++ text

/-- Body of the per-text loop of `translate_with_deepl_batch`
(source lines 194-208): up to `retries` attempts, first success wins
(DeepL's `res.text` is not stripped), otherwise the failure marker
concatenated with the original text. -/
def deeplTranslateOne (oracle : String → Nat → Option String) (retries : Nat)
    (t : String) : String :=
  match (retryFirstCounted oracle t 0 retries).1 with
  | some r => r
  | none => failMarker ++ t

/-- Embedding of `translate_with_deepl_batch(texts, target_lang, retries,
sleep_between)` (source lines 186-213).  `ok` models the result of
`init_deepl_client()`; when initialization fails every text maps to the
"DeepL not configured" placeholder, otherwise each text is translated
sequentially through the bounded retry loop. -/
def translate_with_deepl_batch (ok : Bool) (oracle : String → Nat → Option String)
    (retries : Nat) (texts : List String) : List String :=
  if ok = false then texts.map (fun _ => noDeepLMsg)
  else texts.map (fun t => deeplTranslateOne oracle retries t)

/-- Inner chunking loop of `translate_batch_with_context_gpt`
(source line 225): starting from running totals `chars` and `count`,
greedily take texts while `chars + len(t) ≤ mc` and `count < 20`,
returning the taken chunk and the remaining texts. -/
def grabChunk (mc : Nat) : Nat → Nat → List String → List String × List String
  | _, _, [] => ([], [])
  | chars, count, t :: rest =>
    if chars + t.length ≤ mc ∧ count < 20 then
      (t :: (grabChunk mc (chars + t.length) (count + 1) rest).1,
       (grabChunk mc (chars + t.length) (count + 1) rest).2)
    else ([], t :: rest)

/-- Outer chunking loop of `translate_batch_with_context_gpt`
(source lines 222-230), written with explicit fuel so that it is
structural: each outer iteration consumes at least one text, so fuel equal
to the list length never runs out.  When the first remaining text fits
(`len(t) ≤ mc`, the inner guard at running totals 0, 0) it starts the
chunk and the inner loop continues from totals `len(t), 1`; otherwise the
`if not chunk_texts` escape valve (source line 230) emits the oversized
text as a singleton batch. -/
def chunksFuel (mc : Nat) : Nat → List String → List (List String)
  | _, [] => []
  | 0, _ :: _ => []
  | fuel + 1, t :: rest =>
    if t.length ≤ mc then
      (t :: (grabChunk mc t.length 1 rest).1) ::
        chunksFuel mc fuel (grabChunk mc t.length 1 rest).2
    else
      [t] :: chunksFuel mc fuel rest

/-- The chunk planner: partition `texts` into the ordered batches built by
the chunking loops of `translate_batch_with_context_gpt`. -/
def chunks (mc : Nat) (texts : List String) : List (List String) :=
  chunksFuel mc texts.length texts

/-- Parsed outcome of one chat-completion request for a chunk
(source lines 238-256): `ok l` when the reply (directly or through the
`rfind` recovery heuristic) parses as a JSON list, `fail` when the request
raised or nothing parsed as a list. -/
inductive BatchResp
  | fail
  | ok (l : List String)

/-- Handling of one chunk inside `translate_batch_with_context_gpt`
(source lines 237-264): the parsed list is accepted only when its length
equals the chunk's length; on any mismatch, parse failure or raised
exception, every text of the chunk goes through `_translate_single_retry`
(with its default `retries=3`; the client is non-`None` here because the
enclosing function returned early otherwise). -/
def processChunk (bo : Nat → BatchResp) (so : String → Nat → Option String)
    (idx : Nat) (c : List String) : List String :=
  match bo idx with
  | BatchResp.ok l =>
    if l.length = c.length then l
    else c.map (fun s => _translate_single_retry true so 3 s)
  | BatchResp.fail => c.map (fun s => _translate_single_retry true so 3 s)

/-- Sequential processing of the planned chunks, extending the result list
chunk by chunk (the `results.extend` / `results.append` accumulation of
source lines 257-264); `idx` numbers the service calls. -/
def runChunks (bo : Nat → BatchResp) (so : String → Nat → Option String) :
    Nat → List (List String) → List String
  | _, [] => []
  | idx, c :: cs => processChunk bo so idx c ++ runChunks bo so (idx + 1) cs

/-- Embedding of `translate_batch_with_context_gpt(texts, max_batch_chars)`
(source lines 216-266).  `configured` models `openai_client is not None`:
when unconfigured, every text maps to the "no OpenAI key" placeholder;
otherwise the texts are chunked and each chunk is submitted, validated and
fallen back as in `processChunk`. -/
def translate_batch_with_context_gpt (configured : Bool) (bo : Nat → BatchResp)
    (so : String → Nat → Option String) (mc : Nat) (texts : List String) : List String :=
  if configured = false then texts.map (fun _ => noOpenAIKeyMsg)
  else runChunks bo so 0 (chunks mc texts)

/-- Total character count of a batch: `sum(len(t) for t in texts)`. -/
def sumChars (l : List String) : Nat := (l.map String.length).sum

/-- Left zero-padding to width 2, the `{:02d}` format. -/
def pad2 (n : Nat) : String :=
  if n < 10 then "0" ++ toString n else toString n

/-- Left zero-padding to width 3, the fractional digits of `{:06.3f}`. -/
def pad3 (n : Nat) : String :=
  if n < 10 then "00" ++ toString n
  else if n < 100 then "0" ++ toString n
  else toString n

/-- Embedding of `format_timestamp(seconds)` (source lines 288-292) with
the seconds offset given as an exact count of milliseconds:
`h = seconds // 3600`, `m = (seconds % 3600) // 60`, `s = seconds % 60`,
rendered `{h:02d}:{m:02d}:{s:06.3f}` with the dot replaced by a comma
(for `s < 60` the `{:06.3f}` field is exactly two integer digits, the
separator and three fractional digits). -/
def format_timestamp (ms : Nat) : String :=
  pad2 (ms / 3600000) ++ ":" ++ pad2 (ms % 3600000 / 60000) ++ ":" ++
    pad2 (ms % 60000 / 1000) ++ "," ++ pad3 (ms % 1000)

/-- A timed segment produced by the recognition stage: `start`/`stop`
model the `.start`/`.end` second offsets (as milliseconds, `end` being a
Lean keyword), `text` the recognized text. -/
structure TimedSegment where
  start : Nat
  stop : Nat
  text : String
deriving DecidableEq

/-- One subtitle cue as written by `write_srt_bilingual`: 1-based index,
formatted start and end timestamps, stripped original text and the
translated text. -/
structure Cue where
  index : Nat
  startTs : String
  endTs : String
  original : String
  translated : String
deriving DecidableEq

/-- The cue list built by `for idx, (seg, zh) in enumerate(zip(segments,
translations), start=1)` (source line 298), generalized over the starting
index `k`. -/
def srtCuesFrom (k : Nat) : List TimedSegment → List String → List Cue
  | seg :: segs, zh :: zhs =>
    ⟨k, format_timestamp seg.start, format_timestamp seg.stop, seg.text.trim, zh⟩ ::
      srtCuesFrom (k + 1) segs zhs
  | _, _ => []

/-- The cue list of `write_srt_bilingual`, numbered from 1. -/
def srtCues (segments : List TimedSegment) (translations : List String) : List Cue :=
  srtCuesFrom 1 segments translations

/-- Serialization of one cue: the f-string
`f"{idx}\n{start} --> {end}\n{orig}\n{zh}\n\n"` of source line 302. -/
def renderCue (c : Cue) : String :=
  toString c.index ++ "\n" ++ c.startTs ++ " --> " ++ c.endTs ++ "\n" ++
    c.original ++ "\n" ++ c.translated ++ "\n\n"

/-- Embedding of `write_srt_bilingual(out_path, segments, translations)`
(source lines 294-303): the document text written to the output file. -/
def write_srt_bilingual (segments : List TimedSegment) (translations : List String) :
    String :=
  String.join ((srtCues segments translations).map renderCue)

/-- The tail padding of `process_video_flow` (source lines 399-400): when
fewer translations than segments were produced, extend the translation
list with failure markers up to `total`. -/
def padTranslations (total : Nat) (translations : List String) : List String :=
  if translations.length < total then
    translations ++ List.replicate (total - translations.length) failMarker
  else translations

/-- Terminal outcome of one pipeline run: the final status message and the
written SRT document, if any. -/
structure FlowOutcome where
  statusMsg : String
  output : Option String
deriving DecidableEq

/-- Embedding of the post-recognition part of `process_video_flow`
(source lines 377-406), with the selected translation backend abstracted
as `translate`: an empty segment list reports the empty-result status and
writes nothing; otherwise the stripped originals are translated, a too
short translation list is padded with failure markers, and the bilingual
SRT document is written. -/
def process_video_flow (translate : List String → List String)
    (segments : List TimedSegment) : FlowOutcome :=
  if segments.isEmpty then ⟨"识别结果为空", none⟩
  else
    let originals := segments.map (fun s => s.text.trim)
    let translations := translate originals
    let padded := padTranslations originals.length translations
    ⟨"字幕生成完成", some (write_srt_bilingual segments padded)⟩

/-! Lemmas about the chunking loops. -/

/-- The inner loop splits its input: taken chunk followed by remainder. -/
theorem grabChunk_append (mc : Nat) :
    ∀ (ts : List String) (chars count : Nat),
      (grabChunk mc chars count ts).1 ++ (grabChunk mc chars count ts).2 = ts := by
  intro ts
  induction ts with
  | nil => intro chars count; rfl
  | cons t rest ih =>
    intro chars count
    by_cases h : chars + t.length ≤ mc ∧ count < 20
    · simp only [grabChunk, if_pos h, List.cons_append, List.cons.injEq, true_and]
      exact ih (chars + t.length) (count + 1)
    · simp only [grabChunk, if_neg h, List.nil_append]

/-- The remainder left by the inner loop is no longer than its input. -/
theorem grabChunk_snd_length (mc : Nat) :
    ∀ (ts : List String) (chars count : Nat),
      (grabChunk mc chars count ts).2.length ≤ ts.length := by
  intro ts
  induction ts with
  | nil => intro chars count; exact Nat.le_refl 0
  | cons t rest ih =>
    intro chars count
    by_cases h : chars + t.length ≤ mc ∧ count < 20
    · simp only [grabChunk, if_pos h]
      exact Nat.le_succ_of_le (ih (chars + t.length) (count + 1))
    · simp only [grabChunk, if_neg h, Nat.le_refl]

/-- The inner loop takes at most `20 - count` further texts (the
`len(chunk_texts) < 20` guard). -/
theorem grabChunk_fst_length (mc : Nat) :
    ∀ (ts : List String) (chars count : Nat),
      (grabChunk mc chars count ts).1.length ≤ 20 - count := by
  intro ts
  induction ts with
  | nil => intro chars count; exact Nat.zero_le _
  | cons t rest ih =>
    intro chars count
    by_cases h : chars + t.length ≤ mc ∧ count < 20
    · simp only [grabChunk, if_pos h, List.length_cons]
      have := ih (chars + t.length) (count + 1)
      omega
    · simp only [grabChunk, if_neg h, List.length_nil]
      exact Nat.zero_le _

/-- The inner loop respects the character budget: the chunk it returns is
empty, or the running total including it stays within `mc`. -/
theorem grabChunk_fst_chars (mc : Nat) :
    ∀ (ts : List String) (chars count : Nat),
      (grabChunk mc chars count ts).1 = [] ∨
        chars + sumChars (grabChunk mc chars count ts).1 ≤ mc := by
  intro ts
  induction ts with
  | nil => intro chars count; exact Or.inl rfl
  | cons t rest ih =>
    intro chars count
    by_cases h : chars + t.length ≤ mc ∧ count < 20
    · right
      simp only [grabChunk, if_pos h]
      rcases ih (chars + t.length) (count + 1) with h0 | hle
      · simp only [sumChars, List.map_cons, h0, List.map_nil, List.sum_cons,
          List.sum_nil, Nat.add_zero]
        exact h.1
      · simp only [sumChars, List.map_cons, List.sum_cons] at hle ⊢
        omega
    · exact Or.inl (by simp only [grabChunk, if_neg h])

/-- With enough fuel, concatenating the planned chunks restores the input
list exactly. -/
theorem chunksFuel_join (mc : Nat) :
    ∀ (fuel : Nat) (ts : List String), ts.length ≤ fuel →
      (chunksFuel mc fuel ts).flatten = ts := by
  intro fuel
  induction fuel with
  | zero =>
    intro ts h
    match ts with
    | [] => rfl
  | succ f ih =>
    intro ts h
    match ts with
    | [] => rfl
    | t :: rest =>
      simp only [List.length_cons, Nat.succ_le_succ_iff] at h
      by_cases hfit : t.length ≤ mc
      · simp only [chunksFuel, if_pos hfit, List.flatten]
        have hrest : (grabChunk mc t.length 1 rest).2.length ≤ f :=
          Nat.le_trans (grabChunk_snd_length mc rest t.length 1) h
        rw [ih _ hrest, List.cons_append, grabChunk_append]
      · simp only [chunksFuel, if_neg hfit, List.flatten, List.singleton_append]
        rw [ih rest h]

/-- Chunk planner soundness: the concatenation of the planned batches, in
emission order, is the input list. -/
theorem chunks_join (mc : Nat) (ts : List String) : (chunks mc ts).flatten = ts :=
  chunksFuel_join mc ts.length ts (Nat.le_refl _)

/-- With enough fuel, every planned batch has at most 20 texts, and stays
within the character budget unless it is a singleton oversized text. -/
theorem chunksFuel_mem (mc : Nat) :
    ∀ (fuel : Nat) (ts : List String), ts.length ≤ fuel →
      ∀ c ∈ chunksFuel mc fuel ts,
        c.length ≤ 20 ∧ (sumChars c ≤ mc ∨ ∃ t, c = [t] ∧ mc < t.length) := by
  intro fuel
  induction fuel with
  | zero =>
    intro ts h c hc
    match ts with
    | [] => exact absurd hc (by simp [chunksFuel])
  | succ f ih =>
    intro ts h c hc
    match ts with
    | [] => exact absurd hc (by simp [chunksFuel])
    | t :: rest =>
      simp only [List.length_cons, Nat.succ_le_succ_iff] at h
      by_cases hfit : t.length ≤ mc
      · simp only [chunksFuel, if_pos hfit, List.mem_cons] at hc
        rcases hc with hc | hc
        · subst hc
          constructor
          · simp only [List.length_cons]
            have := grabChunk_fst_length mc rest t.length 1
            omega
          · left
            rcases grabChunk_fst_chars mc rest t.length 1 with h0 | hle
            · simp only [sumChars, h0, List.map_cons, List.map_nil,
                List.sum_cons, List.sum_nil, Nat.add_zero]
              exact hfit
            · simp only [sumChars, List.map_cons, List.sum_cons] at hle ⊢
              omega
        · exact ih _ (Nat.le_trans (grabChunk_snd_length mc rest t.length 1) h) c hc
      · simp only [chunksFuel, if_neg hfit, List.mem_cons] at hc
        rcases hc with hc | hc
        · subst hc
          refine ⟨by simp, Or.inr ⟨t, rfl, Nat.lt_of_not_le hfit⟩⟩
        · exact ih rest h c hc

/-- Every batch of the chunk planner respects the count budget of 20 and
the character budget `mc`, except that an oversized text forms a singleton
batch of its own. -/
theorem chunks_mem (mc : Nat) (ts : List String) :
    ∀ c ∈ chunks mc ts,
      c.length ≤ 20 ∧ (sumChars c ≤ mc ∨ ∃ t, c = [t] ∧ mc < t.length) :=
  chunksFuel_mem mc ts.length ts (Nat.le_refl _)

/-! Lemmas about the retry loop. -/

/-- Against an oracle that fails on every attempt for `t`, the retry loop
finds no response and makes exactly `k` calls. -/
theorem retryFirstCounted_allFail (oracle : String → Nat → Option String) (t : String)
    (hfail : ∀ a, oracle t a = none) :
    ∀ (k attempt : Nat), retryFirstCounted oracle t attempt k = (none, k) := by
  intro k
  induction k with
  | zero => intro attempt; rfl
  | succ n ih =>
    intro attempt
    simp only [retryFirstCounted, hfail attempt, ih (attempt + 1)]

/-- A response found by the retry loop was produced by the oracle at some
attempt index. -/
theorem retryFirstCounted_some (oracle : String → Nat → Option String) (t r : String) :
    ∀ (k attempt : Nat), (retryFirstCounted oracle t attempt k).1 = some r →
      ∃ a, oracle t a = some r := by
  intro k
  induction k with
  | zero => intro attempt h; exact absurd h (by simp [retryFirstCounted])
  | succ n ih =>
    intro attempt h
    simp only [retryFirstCounted] at h
    cases hor : oracle t attempt with
    | some v =>
      rw [hor] at h
      have hv : some v = some r := h
      exact ⟨attempt, hor.trans hv⟩
    | none =>
      rw [hor] at h
      exact ih (attempt + 1) h

/-- Concatenating a nonempty string in front of anything never yields the
empty string. -/
theorem append_ne_empty_of_left_ne_empty (s t : String) (h : s.length ≠ 0) :
    s ++ t ≠ "" := by
  intro he
  have hl := congrArg String.length he
  rw [String.length_append] at hl
  have h0 : ("" : String).length = 0 := rfl
  rw [h0] at hl
  omega

/-! Lemmas about chunk processing. -/

/-- Each processed chunk contributes exactly as many results as it has
texts: the accepted list has matching length by the guard, and the
fallback maps over the chunk. -/
theorem processChunk_length (bo : Nat → BatchResp) (so : String → Nat → Option String)
    (idx : Nat) (c : List String) : (processChunk bo so idx c).length = c.length := by
  cases hbo : bo idx with
  | fail => simp [processChunk, hbo]
  | ok l =>
    by_cases hl : l.length = c.length
    · simp [processChunk, hbo, hl]
    · simp [processChunk, hbo, hl]

/-- Running the chunks produces one result per input text of every chunk. -/
theorem runChunks_length (bo : Nat → BatchResp) (so : String → Nat → Option String) :
    ∀ (cs : List (List String)) (idx : Nat),
      (runChunks bo so idx cs).length = (cs.map List.length).sum := by
  intro cs
  induction cs with
  | nil => intro idx; rfl
  | cons c rest ih =>
    intro idx
    simp only [runChunks, List.length_append, processChunk_length, List.map_cons,
      List.sum_cons, ih (idx + 1)]

/-- Every result of `runChunks` comes from processing some chunk of the
plan at some call index. -/
theorem mem_runChunks (bo : Nat → BatchResp) (so : String → Nat → Option String) :
    ∀ (cs : List (List String)) (idx : Nat) (r : String),
      r ∈ runChunks bo so idx cs →
      ∃ j c, c ∈ cs ∧ r ∈ processChunk bo so j c := by
  intro cs
  induction cs with
  | nil => intro idx r h; exact absurd h (by simp [runChunks])
  | cons c rest ih =>
    intro idx r h
    simp only [runChunks, List.mem_append] at h
    rcases h with h | h
    · exact ⟨idx, c, List.mem_cons_self c rest, h⟩
    · rcases ih (idx + 1) r h with ⟨j, c2, hc2, hr⟩
      exact ⟨j, c2, List.mem_cons_of_mem c hc2, hr⟩

/-! Predicates classifying the elements of a translation result. -/

/-- A visibly tagged sentinel: a failure marker or not-configured
placeholder, possibly carrying the original text. -/
def isTaggedMarker (r : String) : Prop :=
  (∃ t, r = failMarker ++ t) ∨ (∃ t, r = noOpenAIKeyMsg ++ t) ∨
    r = noOpenAIKeyMsg ∨ r = noDeepLMsg

/-- Every tagged sentinel is a nonempty string. -/
theorem isTaggedMarker_ne_empty (r : String) (h : isTaggedMarker r) : r ≠ "" := by
  rcases h with ⟨t, rfl⟩ | ⟨t, rfl⟩ | rfl | rfl
  · exact append_ne_empty_of_left_ne_empty failMarker t (by decide)
  · exact append_ne_empty_of_left_ne_empty noOpenAIKeyMsg t (by decide)
  · decide
  · decide

/-- A genuine product of the GPT backend: either a member of a batch list
the batch oracle returned, or the stripped content of a successful
single-text call. -/
def gptGenuine (bo : Nat → BatchResp) (so : String → Nat → Option String)
    (r : String) : Prop :=
  (∃ idx l, bo idx = BatchResp.ok l ∧ r ∈ l) ∨
    (∃ t a v, so t a = some v ∧ r = v.trim)

/-- A genuine product of the DeepL backend: a response the oracle returned
for some text at some attempt. -/
def deeplGenuine (oracle : String → Nat → Option String) (r : String) : Prop :=
  ∃ t a, oracle t a = some r

/-- Every single-text retry result with a configured client is genuine or
the tagged failure marker over its input. -/
theorem single_retry_cases (so : String → Nat → Option String) (retries : Nat)
    (s : String) :
    (∃ a v, so s a = some v ∧ _translate_single_retry true so retries s = v.trim) ∨
      _translate_single_retry true so retries s = failMarker ++ s := by
  cases hr : (retryFirstCounted so s 0 retries).1 with
  | some v =>
    left
    rcases retryFirstCounted_some so s v retries 0 hr with ⟨a, ha⟩
    exact ⟨a, v, ha, by simp [_translate_single_retry, hr]⟩
  | none =>
    right
    simp [_translate_single_retry, hr]

/-! Lemmas about the subtitle assembler. -/

/-- The cue list is as long as the shorter of the two zipped lists
(`zip` truncates). -/
theorem srtCuesFrom_length :
    ∀ (segs : List TimedSegment) (zhs : List String) (k : Nat),
      (srtCuesFrom k segs zhs).length = min segs.length zhs.length := by
  intro segs
  induction segs with
  | nil =>
    intro zhs k
    cases zhs <;> simp [srtCuesFrom]
  | cons seg segs ih =>
    intro zhs k
    cases zhs with
    | nil => simp [srtCuesFrom]
    | cons zh zhs =>
      simp only [srtCuesFrom, List.length_cons, ih zhs (k + 1)]
      omega

/-- The cue at position `i` pairs the segment and translation at position
`i`, numbered `k + i`. -/
theorem srtCuesFrom_get :
    ∀ (segs : List TimedSegment) (zhs : List String) (k i : Nat)
      (seg : TimedSegment) (zh : String),
      segs.get? i = some seg → zhs.get? i = some zh →
      (srtCuesFrom k segs zhs).get? i =
        some ⟨k + i, format_timestamp seg.start, format_timestamp seg.stop,
          seg.text.trim, zh⟩ := by
  intro segs
  induction segs with
  | nil => intro zhs k i seg zh hs _; exact absurd hs (by simp)
  | cons s segs ih =>
    intro zhs k i seg zh hs hz
    cases zhs with
    | nil => exact absurd hz (by simp)
    | cons z zhs =>
      cases i with
      | zero =>
        simp only [List.get?] at hs hz
        injection hs with hs
        injection hz with hz
        subst hs
        subst hz
        simp [srtCuesFrom]
      | succ i =>
        simp only [List.get?] at hs hz
        have := ih zhs (k + 1) i seg zh hs hz
        simp only [srtCuesFrom, List.get?, this, Option.some.injEq, Cue.mk.injEq,
          and_true, true_and]
        omega

/-- Padded translations reach exactly the requested total when they were
shorter. -/
theorem padTranslations_length (total : Nat) (translations : List String)
    (h : translations.length < total) :
    (padTranslations total translations).length = total := by
  simp only [padTranslations, if_pos h, List.length_append, List.length_replicate]
  omega

/-- Every padded tail position holds the failure marker. -/
theorem padTranslations_get (total : Nat) (translations : List String)
    (h : translations.length < total) :
    ∀ j, translations.length ≤ j → j < total →
      (padTranslations total translations).get? j = some failMarker := by
  intro j hj hjt
  simp only [padTranslations, if_pos h]
  rw [List.get?_eq_getElem?, List.getElem?_append_right hj,
    List.getElem?_replicate_of_lt (by omega)]

/-! Lemmas about the timestamp codec. -/

/-- Width-2 zero padding really has width 2 below 100. -/
theorem pad2_length : ∀ n, n < 100 → (pad2 n).length = 2 := by
  set_option maxRecDepth 10000 in decide

/-- Width-3 zero padding really has width 3 below 1000. -/
theorem pad3_length : ∀ n, n < 1000 → (pad3 n).length = 3 := by
  set_option maxRecDepth 100000 in set_option maxHeartbeats 1000000 in decide

/-- Fallback results are genuine (stripped successful single calls) or the
failure marker over the chunk's own text. -/
theorem mem_fallback_cases (so : String → Nat → Option String) (c : List String)
    (r : String) (h : r ∈ c.map (fun s => _translate_single_retry true so 3 s)) :
    (∃ t a v, so t a = some v ∧ r = v.trim) ∨ ∃ t, r = failMarker ++ t := by
  rcases List.mem_map.mp h with ⟨s, _, rfl⟩
  rcases single_retry_cases so 3 s with ⟨a, v, hav, hv⟩ | hm
  · exact Or.inl ⟨s, a, v, hav, hv⟩
  · exact Or.inr ⟨s, hm⟩

/-- Each DeepL per-text result is a response the oracle gave for that text
or the failure marker over it. -/
theorem deepl_one_cases (od : String → Nat → Option String) (retries : Nat)
    (t : String) :
    (∃ a, od t a = some (deeplTranslateOne od retries t)) ∨
      deeplTranslateOne od retries t = failMarker ++ t := by
  cases hr : (retryFirstCounted od t 0 retries).1 with
  | some v =>
    left
    rcases retryFirstCounted_some od t v retries 0 hr with ⟨a, ha⟩
    exact ⟨a, by rw [ha, deeplTranslateOne, hr]⟩
  | none =>
    right
    simp [deeplTranslateOne, hr]

/-- Getting through a map at a defined position. -/
theorem get?_map_eq (f : String → String) (l : List String) (i : Nat) (t : String)
    (h : l.get? i = some t) : (l.map f).get? i = some (f t) := by
  rw [List.get?_eq_getElem?] at h ⊢
  rw [List.getElem?_map, h]
  rfl

/-- Positional alignment of chunk processing: the result at position `i`
of the concatenated per-chunk outputs is the per-text retry of exactly the
text at position `i` of the concatenated chunks, or the `k`-th element of
an accepted oracle list for a chunk whose `k`-th input is exactly that
text — so outputs line up with inputs position by position. -/
theorem runChunks_get (bo : Nat → BatchResp) (so : String → Nat → Option String) :
    ∀ (cs : List (List String)) (idx i : Nat) (t : String),
      cs.flatten.get? i = some t →
      ∃ v, (runChunks bo so idx cs).get? i = some v ∧
        (v = _translate_single_retry true so 3 t ∨
          ∃ j c l k, bo j = BatchResp.ok l ∧ l.length = c.length ∧ c ∈ cs ∧
            c.get? k = some t ∧ l.get? k = some v) := by
  intro cs
  induction cs with
  | nil => intro idx i t h; exact absurd h (by simp)
  | cons c rest ih =>
    intro idx i t h
    rw [List.flatten_cons] at h
    by_cases hi : i < c.length
    · have hct : c.get? i = some t := by
        rw [List.get?_eq_getElem?] at h ⊢
        rwa [List.getElem?_append_left hi] at h
      have hout : ∀ w, (processChunk bo so idx c).get? i = some w →
          (runChunks bo so idx (c :: rest)).get? i = some w := by
        intro w hw
        show (processChunk bo so idx c ++ runChunks bo so (idx + 1) rest).get? i = some w
        rw [List.get?_eq_getElem?,
          List.getElem?_append_left (by rw [processChunk_length]; exact hi),
          ← List.get?_eq_getElem?]
        exact hw
      cases hbo : bo idx with
      | ok l =>
        by_cases hl : l.length = c.length
        · have hpc : processChunk bo so idx c = l := by simp [processChunk, hbo, hl]
          have hil : i < l.length := by rw [hl]; exact hi
          refine ⟨l.get ⟨i, hil⟩, hout _ (by rw [hpc]; exact List.get?_eq_get hil),
            Or.inr ⟨idx, c, l, i, hbo, hl, List.mem_cons_self c rest, hct,
              List.get?_eq_get hil⟩⟩
        · have hpc : processChunk bo so idx c =
              c.map (fun s => _translate_single_retry true so 3 s) := by
            simp [processChunk, hbo, hl]
          exact ⟨_, hout _ (by rw [hpc]; exact get?_map_eq _ c i t hct), Or.inl rfl⟩
      | fail =>
        have hpc : processChunk bo so idx c =
            c.map (fun s => _translate_single_retry true so 3 s) := by
          simp [processChunk, hbo]
        exact ⟨_, hout _ (by rw [hpc]; exact get?_map_eq _ c i t hct), Or.inl rfl⟩
    · have hle : c.length ≤ i := Nat.le_of_not_lt hi
      have hrt : rest.flatten.get? (i - c.length) = some t := by
        rw [List.get?_eq_getElem?] at h ⊢
        rwa [List.getElem?_append_right hle] at h
      obtain ⟨v, hv, hcase⟩ := ih (idx + 1) (i - c.length) t hrt
      refine ⟨v, ?_, ?_⟩
      · show (processChunk bo so idx c ++ runChunks bo so (idx + 1) rest).get? i = some v
        rw [List.get?_eq_getElem?,
          List.getElem?_append_right (by rw [processChunk_length]; exact hle),
          processChunk_length, ← List.get?_eq_getElem?]
        exact hv
      · rcases hcase with h1 | ⟨j, c2, l, k, a1, a2, a3, a4, a5⟩
        · exact Or.inl h1
        · exact Or.inr ⟨j, c2, l, k, a1, a2, List.mem_cons_of_mem c a3, a4, a5⟩

/-! The claims. -/

/-- C2: for every input list of texts and every character budget, the
greedy left-to-right chunking loop of `translate_batch_with_context_gpt`
partitions the input so that the concatenation of all batches, in emission
order, equals the full input sequence exactly — every text appears exactly
once, in the original order, with no gaps, duplicates or reordering. -/
theorem chunk_planner_partition (mc : Nat) (texts : List String) :
    (chunks mc texts).flatten = texts :=
  chunks_join mc texts

/-- C6: every batch produced by the chunk planner holds at most 20 texts,
and its total character count stays within the budget `mc` except when the
batch is the singleton of one oversized text, which is kept whole in its
own batch rather than split, truncated or dropped. -/
theorem chunk_budgets (mc : Nat) (texts : List String) (c : List String)
    (hc : c ∈ chunks mc texts) :
    c.length ≤ 20 ∧ (sumChars c ≤ mc ∨ ∃ t, c = [t] ∧ mc < t.length) :=
  chunks_mem mc texts c hc

/-- Witness for C6 at a concrete oversized input: with budget 5, the text
"abcdef" is planned as its own singleton batch. -/
theorem chunk_budgets_witness :
    (["abcdef"] : List String).length ≤ 20 ∧
      (sumChars ["abcdef"] ≤ 5 ∨ ∃ t, (["abcdef"] : List String) = [t] ∧ 5 < t.length) :=
  chunk_budgets 5 ["abcdef"] ["abcdef"] (by decide)

/-- C3: a batch response is consumed only when it is a parsed list whose
length exactly equals the batch size, and then it is consumed whole; on
any mismatch, parse failure or service exception, none of it is consumed
and every text of the batch goes through the per-segment retry path — a
malformed batch response is never partially accepted. -/
theorem batch_all_or_nothing (bo : Nat → BatchResp) (so : String → Nat → Option String)
    (idx : Nat) (c : List String) :
    (∃ l, bo idx = BatchResp.ok l ∧ l.length = c.length ∧
        processChunk bo so idx c = l) ∨
      processChunk bo so idx c = c.map (fun s => _translate_single_retry true so 3 s) := by
  cases hbo : bo idx with
  | fail => exact Or.inr (by simp [processChunk, hbo])
  | ok l =>
    by_cases hl : l.length = c.length
    · exact Or.inl ⟨l, rfl, hl, by simp [processChunk, hbo, hl]⟩
    · exact Or.inr (by simp [processChunk, hbo, hl])

/-- C4: against a backend whose every call fails, `_translate_single_retry`
makes exactly `retries` attempts (default 3 in the source) and returns the
fixed failure marker concatenated with the original text; it never raises
and the result is never the empty string. -/
theorem single_retry_exhaustion (so : String → Nat → Option String) (text : String)
    (retries : Nat) (hfail : ∀ a, so text a = none) :
    _translate_single_retry true so retries text = failMarker ++ text ∧
      (retryFirstCounted so text 0 retries).2 = retries ∧
      _translate_single_retry true so retries text ≠ "" := by
  have h1 : retryFirstCounted so text 0 retries = (none, retries) :=
    retryFirstCounted_allFail so text hfail retries 0
  refine ⟨by simp [_translate_single_retry, h1], by rw [h1], ?_⟩
  have h2 : _translate_single_retry true so retries text = failMarker ++ text := by
    simp [_translate_single_retry, h1]
  rw [h2]
  exact append_ne_empty_of_left_ne_empty failMarker text (by decide)

/-- Witness for C4: a concrete always-failing oracle at retries = 3. -/
theorem single_retry_exhaustion_witness :
    _translate_single_retry true (fun _ _ => none) 3 "hi" = failMarker ++ "hi" ∧
      (retryFirstCounted (fun _ _ => none) "hi" 0 3).2 = 3 ∧
      _translate_single_retry true (fun _ _ => none) 3 "hi" ≠ "" :=
  single_retry_exhaustion (fun _ _ => none) "hi" 3 (fun _ => rfl)

/-- C9: when the recognition stage produces an empty segment list, the
pipeline reports the empty-result status and terminates without producing
any output document, whatever translation backend is plugged in — so no
translation call is made and no file is created. -/
theorem empty_recognition_no_output (translate : List String → List String) :
    process_video_flow translate [] = ⟨"识别结果为空", none⟩ :=
  rfl

/-- C10: with an unconfigured client, each translation operation returns
one visibly tagged "not configured" placeholder per input text — the same
list whatever the service oracle would answer, so the 1:1 length invariant
holds before any network call is attempted. -/
theorem unconfigured_placeholder_lists (bo : Nat → BatchResp)
    (so : String → Nat → Option String) (mc : Nat) (texts : List String)
    (od : String → Nat → Option String) (retries : Nat) (texts2 : List String)
    (so2 : String → Nat → Option String) (retries2 : Nat) (text : String) :
    translate_batch_with_context_gpt false bo so mc texts =
        texts.map (fun _ => noOpenAIKeyMsg) ∧
      (translate_batch_with_context_gpt false bo so mc texts).length = texts.length ∧
      translate_with_deepl_batch false od retries texts2 =
        texts2.map (fun _ => noDeepLMsg) ∧
      (translate_with_deepl_batch false od retries texts2).length = texts2.length ∧
      _translate_single_retry false so2 retries2 text = noOpenAIKeyMsg ++ text := by
  refine ⟨rfl, ?_, rfl, ?_, rfl⟩
  · simp [translate_batch_with_context_gpt]
  · simp [translate_with_deepl_batch]

/-- C1: both translation operations return exactly one string per input
text and in the same order — the element at output position `i` is
determined by the input text at position `i`: for the GPT backend it is
either the "not configured" placeholder, the per-text retry of exactly
that text, or the `k`-th element of an accepted batch list whose `k`-th
input is exactly that text; for the DeepL backend it is the placeholder or
the per-text translation of exactly that text — and every element is
either a genuine service response or a visibly tagged sentinel marker
that is never the empty string. -/
theorem translate_results_aligned_and_tagged (configured : Bool)
    (bo : Nat → BatchResp) (so : String → Nat → Option String) (mc : Nat)
    (texts : List String) (ok : Bool) (od : String → Nat → Option String)
    (retries : Nat) (texts2 : List String) :
    (translate_batch_with_context_gpt configured bo so mc texts).length = texts.length ∧
      (∀ r, r ∈ translate_batch_with_context_gpt configured bo so mc texts →
        gptGenuine bo so r ∨ (isTaggedMarker r ∧ r ≠ "")) ∧
      (translate_with_deepl_batch ok od retries texts2).length = texts2.length ∧
      (∀ r, r ∈ translate_with_deepl_batch ok od retries texts2 →
        deeplGenuine od r ∨ (isTaggedMarker r ∧ r ≠ "")) ∧
      (∀ i t, texts.get? i = some t →
        ∃ v, (translate_batch_with_context_gpt configured bo so mc texts).get? i =
            some v ∧
          ((configured = false ∧ v = noOpenAIKeyMsg) ∨
            v = _translate_single_retry true so 3 t ∨
            ∃ j c l k, bo j = BatchResp.ok l ∧ l.length = c.length ∧
              c ∈ chunks mc texts ∧ c.get? k = some t ∧ l.get? k = some v)) ∧
      (∀ i t, texts2.get? i = some t →
        (translate_with_deepl_batch ok od retries texts2).get? i =
          some (if ok = false then noDeepLMsg else deeplTranslateOne od retries t)) := by
  refine ⟨?_, ?_, ?_, ?_, ?_, ?_⟩
  · cases configured with
    | false => simp [translate_batch_with_context_gpt]
    | true =>
      show (runChunks bo so 0 (chunks mc texts)).length = texts.length
      rw [runChunks_length]
      have := congrArg List.length (chunks_join mc texts)
      rwa [List.length_flatten] at this
  · intro r hr
    cases configured with
    | false =>
      have : r = noOpenAIKeyMsg := by
        have hx : r ∈ texts.map (fun _ => noOpenAIKeyMsg) := hr
        rcases List.mem_map.mp hx with ⟨x, _, hx2⟩
        exact hx2.symm
      subst this
      have ht : isTaggedMarker noOpenAIKeyMsg := Or.inr (Or.inr (Or.inl rfl))
      exact Or.inr ⟨ht, isTaggedMarker_ne_empty _ ht⟩
    | true =>
      have hr2 : r ∈ runChunks bo so 0 (chunks mc texts) := hr
      rcases mem_runChunks bo so (chunks mc texts) 0 r hr2 with ⟨j, c, _, hpc⟩
      cases hbo : bo j with
      | ok l =>
        by_cases hl : l.length = c.length
        · simp only [processChunk, hbo] at hpc
          rw [if_pos hl] at hpc
          exact Or.inl (Or.inl ⟨j, l, hbo, hpc⟩)
        · simp only [processChunk, hbo] at hpc
          rw [if_neg hl] at hpc
          rcases mem_fallback_cases so c r hpc with hg | ⟨t, hm⟩
          · exact Or.inl (Or.inr hg)
          · have ht : isTaggedMarker r := Or.inl ⟨t, hm⟩
            exact Or.inr ⟨ht, isTaggedMarker_ne_empty _ ht⟩
      | fail =>
        simp only [processChunk, hbo] at hpc
        rcases mem_fallback_cases so c r hpc with hg | ⟨t, hm⟩
        · exact Or.inl (Or.inr hg)
        · have ht : isTaggedMarker r := Or.inl ⟨t, hm⟩
          exact Or.inr ⟨ht, isTaggedMarker_ne_empty _ ht⟩
  · cases ok with
    | false => simp [translate_with_deepl_batch]
    | true => simp [translate_with_deepl_batch]
  · intro r hr
    cases ok with
    | false =>
      have : r = noDeepLMsg := by
        have hx : r ∈ texts2.map (fun _ => noDeepLMsg) := hr
        rcases List.mem_map.mp hx with ⟨x, _, hx2⟩
        exact hx2.symm
      subst this
      have ht : isTaggedMarker noDeepLMsg := Or.inr (Or.inr (Or.inr rfl))
      exact Or.inr ⟨ht, isTaggedMarker_ne_empty _ ht⟩
    | true =>
      have hr2 : r ∈ texts2.map (fun t => deeplTranslateOne od retries t) := hr
      rcases List.mem_map.mp hr2 with ⟨t, _, rfl⟩
      rcases deepl_one_cases od retries t with ⟨a, ha⟩ | hm
      · exact Or.inl ⟨t, a, ha⟩
      · rw [hm]
        have ht : isTaggedMarker (failMarker ++ t) := Or.inl ⟨t, rfl⟩
        exact Or.inr ⟨ht, isTaggedMarker_ne_empty _ ht⟩
  · intro i t ht
    cases configured with
    | false =>
      refine ⟨noOpenAIKeyMsg, ?_, Or.inl ⟨rfl, rfl⟩⟩
      show (texts.map (fun _ => noOpenAIKeyMsg)).get? i = some noOpenAIKeyMsg
      exact get?_map_eq (fun _ => noOpenAIKeyMsg) texts i t ht
    | true =>
      have hft : (chunks mc texts).flatten.get? i = some t := by
        rw [chunks_join]; exact ht
      obtain ⟨v, hv, hcase⟩ := runChunks_get bo so (chunks mc texts) 0 i t hft
      refine ⟨v, hv, ?_⟩
      rcases hcase with h1 | h2
      · exact Or.inr (Or.inl h1)
      · exact Or.inr (Or.inr h2)
  · intro i t ht
    cases ok with
    | false =>
      show (texts2.map (fun _ => noDeepLMsg)).get? i = some noDeepLMsg
      exact get?_map_eq (fun _ => noDeepLMsg) texts2 i t ht
    | true =>
      show (texts2.map (fun s => deeplTranslateOne od retries s)).get? i =
        some (deeplTranslateOne od retries t)
      exact get?_map_eq (fun s => deeplTranslateOne od retries s) texts2 i t ht

/-- Witness for C1 at a concrete run: one text, a batch oracle that always
raises and a single-text oracle that always fails — classifying the
resulting sentinel element and checking the positional equation of the
DeepL output at position 0. -/
theorem translate_results_aligned_and_tagged_witness :
    (gptGenuine (fun _ => BatchResp.fail) (fun _ _ => none) "【翻译失败】hi" ∨
      (isTaggedMarker "【翻译失败】hi" ∧ "【翻译失败】hi" ≠ "")) ∧
      (translate_with_deepl_batch true (fun _ _ => none) 3 ["hi"]).get? 0 =
        some (deeplTranslateOne (fun _ _ => none) 3 "hi") :=
  ⟨(translate_results_aligned_and_tagged true (fun _ => BatchResp.fail)
      (fun _ _ => none) 2000 ["hi"] true (fun _ _ => none) 3 ["hi"]).2.1
    "【翻译失败】hi" (by decide),
    (translate_results_aligned_and_tagged true (fun _ => BatchResp.fail)
      (fun _ _ => none) 2000 ["hi"] true (fun _ _ => none) 3 ["hi"]).2.2.2.2.2
    0 "hi" rfl⟩

/-- C5: for a non-empty segment list and an equally long translation list,
the assembler emits exactly one cue per segment; the cue at position `i`
carries the 1-based index `i + 1`, the formatted start and end timestamps
of segment `i`, its stripped original text and translation `i`; and the
document is the concatenation of the rendered five-line blocks (index
line, `start --> end` line, original line, translated line, blank
separator). -/
theorem assembler_cue_structure (segments : List TimedSegment)
    (translations : List String) (_hne : segments ≠ [])
    (hlen : translations.length = segments.length) :
    (srtCues segments translations).length = segments.length ∧
      (∀ i seg zh, segments.get? i = some seg → translations.get? i = some zh →
        (srtCues segments translations).get? i =
          some ⟨i + 1, format_timestamp seg.start, format_timestamp seg.stop,
            seg.text.trim, zh⟩) ∧
      write_srt_bilingual segments translations =
        String.join ((srtCues segments translations).map renderCue) := by
  refine ⟨?_, ?_, rfl⟩
  · rw [srtCues, srtCuesFrom_length, hlen, Nat.min_self]
  · intro i seg zh hs hz
    rw [srtCues, srtCuesFrom_get segments translations 1 i seg zh hs hz,
      Nat.add_comm 1 i]

/-- Witness for C5 at one concrete segment and translation. -/
theorem assembler_cue_structure_witness :
    (srtCues [({ start := 0, stop := 1200, text := "Hallo" } : TimedSegment)]
        ["你好"]).length = 1 :=
  (assembler_cue_structure [⟨0, 1200, "Hallo"⟩] ["你好"]
      (List.cons_ne_nil _ _) rfl).1

/-- C7: when fewer translations than segments were produced, the assembly
stage pads the tail with failure markers instead of raising, so the padded
list reaches the segment count, the written document still holds exactly
one cue per segment, and every padded position carries the failure
marker. -/
theorem assembler_tail_padding (segments : List TimedSegment)
    (translations : List String) (h : translations.length < segments.length) :
    (padTranslations segments.length translations).length = segments.length ∧
      (srtCues segments (padTranslations segments.length translations)).length =
        segments.length ∧
      ∀ j, translations.length ≤ j → j < segments.length →
        (padTranslations segments.length translations).get? j = some failMarker := by
  refine ⟨padTranslations_length _ _ h, ?_, padTranslations_get _ _ h⟩
  rw [srtCues, srtCuesFrom_length, padTranslations_length _ _ h, Nat.min_self]

/-- Witness for C7: two segments, one translation. -/
theorem assembler_tail_padding_witness :
    (srtCues [(⟨0, 1, "a"⟩ : TimedSegment), ⟨1, 2, "b"⟩]
        (padTranslations 2 ["x"])).length = 2 :=
  (assembler_tail_padding [⟨0, 1, "a"⟩, ⟨1, 2, "b"⟩] ["x"] (by decide)).2.1

/-- C8: the timestamp codec renders the fixed form `HH:MM:SS,mmm` — the
two test points 0 s and 3661.5 s come out as "00:00:00,000" and
"01:01:01,500", and for every offset below 100 hours the string is exactly
12 characters: two-digit zero-padded hour, minute and second fields and a
three-digit zero-padded millisecond field joined by ":", ":" and ",". -/
theorem timestamp_format :
    format_timestamp 0 = "00:00:00,000" ∧
      format_timestamp 3661500 = "01:01:01,500" ∧
      ∀ ms : Nat, ms / 3600000 < 100 →
        (format_timestamp ms).length = 12 ∧
        ∃ hh mm ss mmm,
          format_timestamp ms = hh ++ ":" ++ mm ++ ":" ++ ss ++ "," ++ mmm ∧
            hh.length = 2 ∧ mm.length = 2 ∧ ss.length = 2 ∧ mmm.length = 3 := by
  refine ⟨by decide, by decide, ?_⟩
  intro ms hms
  have hmm : ms % 3600000 / 60000 < 100 := by omega
  have hss : ms % 60000 / 1000 < 100 := by omega
  have hmmm : ms % 1000 < 1000 := by omega
  have heq : format_timestamp ms =
      pad2 (ms / 3600000) ++ ":" ++ pad2 (ms % 3600000 / 60000) ++ ":" ++
        pad2 (ms % 60000 / 1000) ++ "," ++ pad3 (ms % 1000) := rfl
  refine ⟨?_, pad2 (ms / 3600000), pad2 (ms % 3600000 / 60000),
    pad2 (ms % 60000 / 1000), pad3 (ms % 1000), heq,
    pad2_length _ hms, pad2_length _ hmm, pad2_length _ hss, pad3_length _ hmmm⟩
  rw [heq]
  simp only [String.length_append]
  rw [pad2_length _ hms, pad2_length _ hmm, pad2_length _ hss, pad3_length _ hmmm]
  rfl

/-- Witness for C8 at the offset 02:02:05,250. -/
theorem timestamp_format_witness : (format_timestamp 7325250).length = 12 :=
  (timestamp_format.2.2 7325250 (by decide)).1

end BilingualSrt
